import Mathlib

/-!
Verification of the payment-resolution engine of the Calendario_Pagos_PEPAC
repository.

The definitions below are a shallow embedding of the two Python sources:
`Calendario_Pagos_PEPAC-master/Calendario_Pagos_PEPAC-master/Calendario.py`
(v4.2: `PaymentsDB`, `FeagaRef`, `recast_as_month_item`, `App._show_day`,
`App._show_month`, `App._import_aragon_calendar_df`) and the top-level
`Calendario.py` (v0.8: `PaymentsIndex`, `HeuristicPaymentsProvider`,
`CalendarioFEAGA_FEADERFrame._on_calendar_click` and
`_effective_today_items`).

Python `datetime.date` is embedded as a year/month/day record over `Nat`
with the proleptic Gregorian calendar.  The SQLite table behind `PaymentsDB`
is embedded as a list of rows in insertion order; its
`UNIQUE INDEX ux_pagos ON pagos(fecha,tipo,fondo,detalle,origen)` together
with `INSERT OR IGNORE` becomes a guarded append, and `ORDER BY` becomes an
insertion sort by the same keys (byte-wise string comparison, as SQLite
compares TEXT).  Display-only steps of the GUI methods (re-rendering the
`fecha` column as dd/mm/yyyy just before the rows are handed to the
Treeview) are omitted: they do not change which rows are returned.
-/

namespace Cal

/-- Gregorian leap-year test, as used by `calendar.monthrange`. -/
def isLeap (y : Nat) : Bool := (y % 4 == 0 && y % 100 != 0) || (y % 400 == 0)

/-- Number of days of month `m` of year `y` (`calendar.monthrange(y, m)[1]`). -/
def daysInMonth (y m : Nat) : Nat :=
  if m = 2 then (if isLeap y then 29 else 28)
  else if m = 4 ∨ m = 6 ∨ m = 9 ∨ m = 11 then 30 else 31

/-- Embedding of `datetime.date`: a year/month/day triple. -/
structure Date where
  year : Nat
  month : Nat
  day : Nat
deriving DecidableEq, Repr

/-- The triples `datetime.date` accepts (year at least `MINYEAR = 1`;
the model does not impose Python's `MAXYEAR` cap). -/
def Date.Ok (d : Date) : Prop :=
  1 ≤ d.year ∧ 1 ≤ d.month ∧ d.month ≤ 12 ∧ 1 ≤ d.day ∧
    d.day ≤ daysInMonth d.year d.month

instance (d : Date) : Decidable d.Ok :=
  decidable_of_iff (1 ≤ d.year ∧ 1 ≤ d.month ∧ d.month ≤ 12 ∧ 1 ≤ d.day ∧
    d.day ≤ daysInMonth d.year d.month) Iff.rfl

/-- Comparison of `datetime.date` objects (`d1 <= d2`): lexicographic on
(year, month, day). -/
def Date.le (a b : Date) : Prop :=
  a.year < b.year ∨ (a.year = b.year ∧
    (a.month < b.month ∨ (a.month = b.month ∧ a.day ≤ b.day)))

/-- Strict comparison of `datetime.date` objects (`d1 < d2`). -/
def Date.lt (a b : Date) : Prop :=
  a.year < b.year ∨ (a.year = b.year ∧
    (a.month < b.month ∨ (a.month = b.month ∧ a.day < b.day)))

instance (a b : Date) : Decidable (Date.le a b) :=
  decidable_of_iff (a.year < b.year ∨ (a.year = b.year ∧
    (a.month < b.month ∨ (a.month = b.month ∧ a.day ≤ b.day)))) Iff.rfl

instance (a b : Date) : Decidable (Date.lt a b) :=
  decidable_of_iff (a.year < b.year ∨ (a.year = b.year ∧
    (a.month < b.month ∨ (a.month = b.month ∧ a.day < b.day)))) Iff.rfl

/-- Python `max(a, b)` on dates (returns `a` when equal). -/
def Date.max (a b : Date) : Date := if Date.le b a then a else b

/-- Python `min(a, b)` on dates (returns `a` when equal). -/
def Date.min (a b : Date) : Date := if Date.le a b then a else b

/-- Adding `timedelta(days=1)` to a (valid) date. -/
def nextDay (d : Date) : Date :=
  if d.day < daysInMonth d.year d.month then ⟨d.year, d.month, d.day + 1⟩
  else if d.month < 12 then ⟨d.year, d.month + 1, 1⟩
  else ⟨d.year + 1, 1, 1⟩

/-- Number of leap years among `1 .. y-1`. -/
def leapsBefore (y : Nat) : Nat := (y - 1) / 4 - (y - 1) / 100 + (y - 1) / 400

/-- Days of year `y` that fall before month `m` (for `1 ≤ m ≤ 13`). -/
def daysBeforeMonth (y : Nat) : Nat → Nat
  | 0 => 0
  | 1 => 0
  | m + 1 => daysBeforeMonth y m + daysInMonth y m

/-- Proleptic-Gregorian day number of a date (`date.toordinal`): valid dates
are in bijection with day numbers, consecutive dates differ by one. -/
def ratadie (d : Date) : Nat :=
  365 * (d.year - 1) + leapsBefore d.year + daysBeforeMonth d.year d.month + d.day

/-- One step of the `daterange` generator loop, with explicit fuel. -/
def daterangeFuel : Nat → Date → Date → List Date
  | 0, _, _ => []
  | n + 1, cur, d2 =>
    if Date.le cur d2 then cur :: daterangeFuel n (nextDay cur) d2 else []

/-- The `daterange(d1, d2)` generator of `Calendario.py`: all days from `d1`
to `d2` inclusive (the fuel covers the whole closed interval). -/
def daterange (d1 d2 : Date) : List Date :=
  daterangeFuel (ratadie d2 + 1 - ratadie d1) d1 d2

/-- Decimal digit as a character. -/
def digitChar (n : Nat) : Char := Char.ofNat (48 + n)

/-- Two-digit zero-padded rendering (strftime `%d` / `%m`), for `n ≤ 99`. -/
def pad2 (n : Nat) : String :=
  String.mk [digitChar (n / 10 % 10), digitChar (n % 10)]

/-- Four-digit rendering of a year (strftime `%Y`), for `y ≤ 9999`. -/
def pad4 (y : Nat) : String :=
  String.mk [digitChar (y / 1000 % 10), digitChar (y / 100 % 10),
    digitChar (y / 10 % 10), digitChar (y % 10)]

/-- Decimal digits of `n` (little helper with structural fuel). -/
def natDigits : Nat → Nat → List Char
  | 0, _ => []
  | fuel + 1, n =>
    if n < 10 then [digitChar n]
    else natDigits fuel (n / 10) ++ [digitChar (n % 10)]

/-- Python `str(n)` for a natural number. -/
def natToStr (n : Nat) : String := String.mk (natDigits (n + 1) n)

/-- strftime `%d/%m` as used in `FeagaRef` detail strings. -/
def fmtDM (d : Date) : String := pad2 d.day ++ "/" ++ pad2 d.month

/-- The `fmt_dmy` helper (strftime `%d/%m/%Y`); also the composition
`short_date_esp ∘ iso`, since `iso` renders `%Y-%m-%d` and `short_date_esp`
parses it back and renders `%d/%m/%Y`. -/
def fmt_dmy (d : Date) : String :=
  pad2 d.day ++ "/" ++ pad2 d.month ++ "/" ++ pad4 d.year

/-- Python whitespace as stripped by `str.strip` (ASCII repertoire). -/
def isWsChar (c : Char) : Bool :=
  c = ' ' || c = '\t' || c = '\n' || c = '\x0d' || c = '\x0b' || c = '\x0c'

/-- Python `str.strip()` (no arguments). -/
def strTrim (s : String) : String :=
  String.mk (((s.toList.dropWhile isWsChar).reverse.dropWhile isWsChar).reverse)

/-- ASCII uppercase of one character (the `fondo` values compared through
`str.upper` in the sources are ASCII). -/
def upChar (c : Char) : Char :=
  if 'a' ≤ c ∧ c ≤ 'z' then Char.ofNat (c.toNat - 32) else c

/-- Python `str.upper()` on the ASCII repertoire. -/
def strUpper (s : String) : String := String.mk (s.toList.map upChar)

/-- Byte-wise strict comparison of character lists (SQLite TEXT collation). -/
def listCharLt : List Char → List Char → Bool
  | [], [] => false
  | [], _ :: _ => true
  | _ :: _, [] => false
  | a :: as, b :: bs => a < b || (a == b && listCharLt as bs)

/-- Byte-wise strict string comparison (SQLite `ORDER BY` on TEXT). -/
def strLt (a b : String) : Bool := listCharLt a.toList b.toList

/-- Byte-wise string comparison, non-strict. -/
def strLe (a b : String) : Bool := !(strLt b a)

/-- Whether `p` is a prefix of `l` (model of `str.startswith`). -/
def listIsPref : List Char → List Char → Bool
  | [], _ => true
  | _ :: _, [] => false
  | a :: as, b :: bs => a == b && listIsPref as bs

/-- Python `s.startswith(p)`. -/
def strStarts (s p : String) : Bool := listIsPref p.toList s.toList

/-- One row of the `pagos` table (a `PaymentRecord`). -/
structure Payment where
  fecha : Date
  tipo : String
  fondo : String
  detalle : String
  fuente : String
  origen : String
deriving DecidableEq, Repr

/-- The columns covered by the unique index `ux_pagos`. -/
def Payment.key (r : Payment) : Date × String × String × String × String :=
  (r.fecha, r.tipo, r.fondo, r.detalle, r.origen)

/-- An `INSERT OR IGNORE` into `pagos`: append the row unless the unique
index `ux_pagos` already holds its `(fecha,tipo,fondo,detalle,origen)`. -/
def dbInsert (s : List Payment) (r : Payment) : List Payment :=
  if s.any (fun x => decide (x.key = r.key)) then s else s ++ [r]

/-- The `origen IN (...)` clause of the queries: Python omits it when the
`origins` argument is `None` or empty (an empty set is falsy). -/
def originPass (origins : List String) (o : String) : Bool :=
  origins.isEmpty || origins.contains o

/-- Ordering key of `get_day`: `ORDER BY origen DESC, tipo`. -/
def leDayOrd (a b : Payment) : Bool :=
  strLt b.origen a.origen || (a.origen == b.origen && strLe a.tipo b.tipo)

/-- Ordering key of `get_range`: `ORDER BY fecha, origen DESC, tipo`. -/
def leRangeOrd (a b : Payment) : Bool :=
  decide (Date.lt a.fecha b.fecha) ||
    (a.fecha == b.fecha && leDayOrd a b)

/-- Insert into a list sorted by `le` (used to model SQL `ORDER BY`:
any sort producing a permutation ordered by the key is a faithful model,
SQLite does not promise a stable one). -/
def insSorted (le : Payment → Payment → Bool) (x : Payment) :
    List Payment → List Payment
  | [] => [x]
  | y :: ys => if le x y then x :: y :: ys else y :: insSorted le x ys

/-- Insertion sort modelling SQL `ORDER BY le`. -/
def sortBy (le : Payment → Payment → Bool) (l : List Payment) : List Payment :=
  l.foldr (insSorted le) []

/-- The store: the `pagos` table in insertion (= rowid) order. -/
abbrev Store := List Payment

/-- The row built by `PaymentsDB.add`: fields stripped, empty `fondo`
defaulted to the em-dash sentinel (Python `(fondo or "—").strip()`). -/
def addRow (d : Date) (tipo fondo detalle fuente origen : String) : Payment :=
  ⟨d, strTrim tipo, strTrim (if fondo = "" then "—" else fondo),
    strTrim detalle, strTrim fuente, origen⟩

/-- The `PaymentsDB.add` method: strip/default the fields, then
`INSERT OR IGNORE`. -/
def PaymentsDB.add (s : Store) (d : Date)
    (tipo fondo detalle fuente origen : String) : Store :=
  dbInsert s (addRow d tipo fondo detalle fuente origen)

/-- The `PaymentsDB.add_range` method: one `INSERT OR IGNORE` per day of
`daterange(d1, d2)`, with the keyword arguments passed through unstripped. -/
def PaymentsDB.addRange (s : Store) (d1 d2 : Date)
    (tipo fondo detalle fuente origen : String) : Store :=
  (daterange d1 d2).foldl
    (fun acc d => dbInsert acc ⟨d, tipo, fondo, detalle, fuente, origen⟩) s

/-- The `PaymentsDB.get_day` query. -/
def PaymentsDB.getDay (s : Store) (d : Date) (origins : List String) :
    List Payment :=
  sortBy leDayOrd
    (s.filter (fun r => decide (r.fecha = d) && originPass origins r.origen))

/-- The `PaymentsDB.get_range` query (`date(fecha) BETWEEN d1 AND d2`). -/
def PaymentsDB.getRange (s : Store) (d1 d2 : Date) (origins : List String) :
    List Payment :=
  sortBy leRangeOrd
    (s.filter (fun r => decide (Date.le d1 r.fecha) &&
      (decide (Date.le r.fecha d2) && originPass origins r.origen)))

/-- The `PaymentsDB.get_month` query: `get_range` over the whole month. -/
def PaymentsDB.getMonth (s : Store) (y m : Nat) (origins : List String) :
    List Payment :=
  PaymentsDB.getRange s ⟨y, m, 1⟩ ⟨y, m, daysInMonth y m⟩ origins

/-- The `PaymentsDB.has_day` query. -/
def PaymentsDB.hasDay (s : Store) (d : Date) : Bool :=
  s.any (fun r => decide (r.fecha = d))

/-- The `FeagaRef.campaign_year_for` rule: campaign years start in October. -/
def campaignYearFor (d : Date) : Nat :=
  if 10 ≤ d.month then d.year else d.year - 1

/-- The `FeagaRef.windows_for_campaign` constants: label and closed window
for anticipo and saldo of campaign year `cy`, in iteration order. -/
def windowsForCampaign (cy : Nat) : List (String × Date × Date) :=
  [("Anticipo ayudas directas", ⟨cy, 10, 16⟩, ⟨cy, 11, 30⟩),
   ("Saldo ayudas directas", ⟨cy, 12, 1⟩, ⟨cy + 1, 6, 30⟩)]

/-- The constant FEADER reminder row appended by both `day_in_any_window`
and `month_generic_for_day`. -/
def feaderReminder (d : Date) : Payment :=
  ⟨d, "Referencia: FEADER (desarrollo rural)", "FEADER",
    "Pagos según resoluciones/convocatorias autonómicas.", "Referencia",
    "info"⟩

/-- The `FeagaRef.day_in_any_window` synthesis: one `info` row per window of
the day's campaign year containing the day, then the FEADER reminder. -/
def dayInAnyWindow (d : Date) : List Payment :=
  let cy := campaignYearFor d
  ((windowsForCampaign cy).filter
      (fun w => decide (Date.le w.2.1 d) && decide (Date.le d w.2.2))).map
    (fun w => ⟨d, w.1, "FEAGA",
      "Ventana general (" ++ fmtDM w.2.1 ++ "–" ++ fmtDM w.2.2 ++
        "). Campaña " ++ natToStr cy ++ ".",
      "Referencia FEAGA", "info"⟩) ++ [feaderReminder d]

/-- The `FeagaRef.month_generic_for_day` synthesis: for each window that
meets the day's month while missing the day itself, an `info` row locating
the window inside the month; a placeholder row when none does; and the
FEADER reminder at the end. -/
def monthGenericForDay (d : Date) : List Payment :=
  let cy := campaignYearFor d
  let m1 : Date := ⟨d.year, d.month, 1⟩
  let m2 : Date := ⟨d.year, d.month, daysInMonth d.year d.month⟩
  let rows := (windowsForCampaign cy).filterMap (fun w =>
    let ws := Date.max w.2.1 m1
    let we := Date.min w.2.2 m2
    if decide (Date.le ws we) &&
        !(decide (Date.le w.2.1 d) && decide (Date.le d w.2.2)) then
      some ⟨d, "Referencia mes: " ++ w.1, "FEAGA",
        "Este día (" ++ fmt_dmy d ++ ") está fuera; en " ++ pad2 d.month ++
          "/" ++ natToStr d.year ++ " la ventana es " ++ fmtDM ws ++ "–" ++
          fmtDM we ++ " (campaña " ++ natToStr cy ++ ").",
        "Referencia FEAGA", "info"⟩
    else none)
  let rows := if rows.isEmpty then
      [⟨d, "Referencia mes: Sin pagos FEAGA generales", "—",
        "Fuera de ventanas de anticipo/saldo en este mes.",
        "Referencia FEAGA", "info"⟩]
    else rows
  rows ++ [feaderReminder d]

/-- The `recast_as_month_item` helper: move a month-level row onto the
queried day as an `info` row, marking its detail with the `Del mes`
prefix and the original date. -/
def recastAsMonthItem (dayDt : Date) (r : Payment) : Payment :=
  { r with
    fecha := dayDt
    origen := "info"
    detalle := strTrim ("Del mes · " ++ r.detalle) ++
      (if r.fecha = dayDt then ""
       else " (original: " ++ fmt_dmy r.fecha ++ ")") }

/-- The `has_day_fondo` test inside `App._show_day`: does the day already
hold a manual- or web-origin row of the given fund? -/
def hasDayFondo (rows : List Payment) (fondo : String) : Bool :=
  rows.any (fun r =>
    strUpper r.fondo == fondo && (r.origen == "manual" || r.origen == "web"))

/-- The list built by the empty-day branch of `App._show_day` before its
final emptiness test: window references plus up to 12 recast FEADER rows of
the month. -/
def emptyDayGen (s : Store) (active : List String) (dt : Date) :
    List Payment :=
  let monthRows := PaymentsDB.getMonth s dt.year dt.month active
  let feaderMonth := monthRows.filter (fun r => strUpper r.fondo == "FEADER")
  dayInAnyWindow dt ++ (feaderMonth.take 12).map (recastAsMonthItem dt)

/-- The `App._show_day` resolution (the rows handed to `show_rows`; the
dd/mm/yyyy re-rendering of the `fecha` column is display-only). -/
def showDay (s : Store) (active : List String) (dt : Date) : List Payment :=
  let rows := PaymentsDB.getDay s dt active
  let dayHasFeaga := hasDayFondo rows "FEAGA"
  let dayHasFeader := hasDayFondo rows "FEADER"
  if rows.isEmpty then
    let gen := emptyDayGen s active dt
    if gen.isEmpty then monthGenericForDay dt else gen
  else
    let rows1 := if !dayHasFeaga then rows ++ dayInAnyWindow dt else rows
    let monthRows := PaymentsDB.getMonth s dt.year dt.month active
    let rows2 := if !dayHasFeaga then
        rows1 ++ ((monthRows.filter
            (fun r => strUpper r.fondo == "FEAGA")).take 20).map
          (recastAsMonthItem dt)
      else rows1
    if !dayHasFeader then
      rows2 ++ ((monthRows.filter
          (fun r => strUpper r.fondo == "FEADER")).take 20).map
        (recastAsMonthItem dt)
    else rows2

/-- The `App._show_month` resolution: a plain `get_month`, shown as-is when
non-empty and as an explicit "no data" (empty) listing otherwise. -/
def showMonth (s : Store) (active : List String) (y m : Nat) : List Payment :=
  PaymentsDB.getMonth s y m active

/-- One record of the v0.8 `PaymentsIndex` (no date inside the value: the
index is a dict from date to list of such records). -/
structure Item where
  tipo : String
  fondo : String
  detalle : String
  fuente : String
deriving DecidableEq, Repr

/-- The v0.8 `PaymentsIndex`: a date-keyed multimap, embedded as a flat
association list in insertion order (`add` appends unconditionally). -/
abbrev Index := List (Date × Item)

/-- The v0.8 `PaymentsIndex.get_day`. -/
def indexGetDay (idx : Index) (dt : Date) : List Item :=
  (idx.filter (fun e => decide (e.1 = dt))).map (·.2)

/-- The v0.8 `HeuristicPaymentsProvider.get_ranges_for_campaign`. -/
def getRangesForCampaign (cy : Nat) : Date × Date × Date × Date :=
  (⟨cy, 10, 16⟩, ⟨cy, 11, 30⟩, ⟨cy, 12, 1⟩, ⟨cy + 1, 6, 30⟩)

/-- The v0.8 `HeuristicPaymentsProvider.get_for_day`: anticipo and saldo
items when the day falls in the corresponding window, and a
`Sin pagos FEAGA generales` placeholder when no FEAGA item was produced. -/
def heurGetForDay (dt : Date) : List Item :=
  let cy := if 10 ≤ dt.month then dt.year else dt.year - 1
  let out :=
    (if decide (Date.le ⟨cy, 10, 16⟩ dt) && decide (Date.le dt ⟨cy, 11, 30⟩)
     then [⟨"Anticipo ayudas directas", "FEAGA",
       "Hasta el 70% campaña " ++ natToStr cy ++
         ". Ventana general: 16/10–30/11.", "Heurística FEGA"⟩]
     else []) ++
    (if (decide (Date.le ⟨cy, 12, 1⟩ dt) && decide (Date.le dt ⟨cy, 12, 31⟩))
        || (decide (Date.le ⟨cy + 1, 1, 1⟩ dt) &&
            decide (Date.le dt ⟨cy + 1, 6, 30⟩))
     then [⟨"Saldo ayudas directas", "FEAGA",
       "Hasta el 30% restante campaña " ++ natToStr cy ++
         ". Ventana general: 01/12–30/06(año+1).", "Heurística FEGA"⟩]
     else [])
  if out.any (fun i => i.fondo == "FEAGA") then out
  else out ++ [⟨"Sin pagos FEAGA generales", "—",
    "Fuera de ventanas generales de anticipos/saldos. Revise resoluciones específicas.",
    "Heurística FEGA"⟩]

/-- The dedup key used by the v0.8 engine: `(tipo, fondo, detalle)`. -/
def itemTriple (it : Item) : String × String × String :=
  (it.tipo, it.fondo, it.detalle)

/-- The v0.8 dedup loop (`seen` set plus `uniq` accumulator). -/
def dedupGo (seen : List (String × String × String)) :
    List Item → List Item
  | [] => []
  | it :: rest =>
    if itemTriple it ∈ seen then dedupGo seen rest
    else it :: dedupGo (itemTriple it :: seen) rest

/-- Deduplication by `(tipo, fondo, detalle)` keeping first occurrences,
as written in `_effective_today_items` and `_on_calendar_click`. -/
def dedupTriple (l : List Item) : List Item := dedupGo [] l

/-- The day-level list built by the v0.8
`CalendarioFEAGA_FEADERFrame._on_calendar_click`. -/
def onCalendarClickItems (idx : Index) (dt : Date) : List Item :=
  dedupTriple (indexGetDay idx dt ++
    (heurGetForDay dt).filter (fun i => !(strStarts i.tipo "Sin pagos")))

/-- The today-banner list built by the v0.8
`CalendarioFEAGA_FEADERFrame._effective_today_items` (`today` passed in). -/
def effectiveTodayItems (idx : Index) (today : Date) : List Item :=
  dedupTriple (indexGetDay idx today ++
    (heurGetForDay today).filter (fun i =>
      i.fondo == "FEAGA" && !(strStarts i.tipo "Sin pagos")))

/-- C2: for every valid date `d`, `campaignYearFor` returns `d.year` when
`d.month >= 10` and `d.year - 1` when `d.month < 10`. -/
theorem C2_campaign_year_for (d : Date) (_h : d.Ok) :
    (10 ≤ d.month → campaignYearFor d = d.year) ∧
    (d.month < 10 → campaignYearFor d = d.year - 1) := by
  constructor
  · intro h10
    simp [campaignYearFor, h10]
  · intro h10
    rw [campaignYearFor, if_neg (by omega)]

/-- Witness for C2 at the concrete dates 2025-05-15 and 2025-11-02. -/
theorem C2_campaign_year_for_witness :
    Date.Ok ⟨2025, 5, 15⟩ ∧ campaignYearFor ⟨2025, 5, 15⟩ = 2024 ∧
    Date.Ok ⟨2025, 11, 2⟩ ∧ campaignYearFor ⟨2025, 11, 2⟩ = 2025 :=
  ⟨by decide, (C2_campaign_year_for ⟨2025, 5, 15⟩ (by decide)).2 (by decide),
   by decide, (C2_campaign_year_for ⟨2025, 11, 2⟩ (by decide)).1 (by decide)⟩

/-- C3: for every campaign year `cy`, `windowsForCampaign cy` is the anticipo
window [Oct 16 cy, Nov 30 cy] and the saldo window [Dec 1 cy, Jun 30 cy+1]
(the v0.8 `get_ranges_for_campaign` returns the same bounds), and no date
lies in both closed windows. -/
theorem C3_windows_for_campaign (cy : Nat) :
    windowsForCampaign cy =
      [("Anticipo ayudas directas", ⟨cy, 10, 16⟩, ⟨cy, 11, 30⟩),
       ("Saldo ayudas directas", ⟨cy, 12, 1⟩, ⟨cy + 1, 6, 30⟩)] ∧
    getRangesForCampaign cy =
      (⟨cy, 10, 16⟩, ⟨cy, 11, 30⟩, ⟨cy, 12, 1⟩, ⟨cy + 1, 6, 30⟩) ∧
    ∀ d : Date,
      (decide (Date.le ⟨cy, 10, 16⟩ d) && decide (Date.le d ⟨cy, 11, 30⟩) &&
       decide (Date.le ⟨cy, 12, 1⟩ d) &&
       decide (Date.le d ⟨cy + 1, 6, 30⟩)) = false := by
  refine ⟨rfl, rfl, fun d => ?_⟩
  rcases d with ⟨y, m, dd⟩
  simp only [Bool.and_eq_false_iff, decide_eq_false_iff_not, Date.le]
  simp only [not_or, not_and, not_lt, not_le]
  omega

/-- Inserting into a sorted list permutes consing. -/
theorem insSorted_perm (le : Payment → Payment → Bool) (x : Payment) :
    ∀ l : List Payment, List.Perm (insSorted le x l) (x :: l) := by
  intro l
  induction l with
  | nil => simp [insSorted]
  | cons y ys ih =>
    rw [insSorted]
    by_cases h : le x y = true
    · simp [h]
    · simp only [h]
      rw [if_neg (by simp [h])]
      exact (ih.cons y).trans (List.Perm.swap x y ys)

/-- The model of SQL `ORDER BY` returns a permutation of its input. -/
theorem sortBy_perm (le : Payment → Payment → Bool) (l : List Payment) :
    List.Perm (sortBy le l) l := by
  induction l with
  | nil => simp [sortBy]
  | cons y ys ih =>
    exact ((insSorted_perm le y (sortBy le ys)).trans (ih.cons y))

/-- The uniqueness invariant enforced by the index `ux_pagos`: no two rows
of the table agree on `(fecha,tipo,fondo,detalle,origen)`. -/
def UniqKeys (s : Store) : Prop :=
  List.Pairwise (fun a b => a.key ≠ b.key) s

/-- A table satisfying the `ux_pagos` invariant holds at most one row with
a given key. -/
theorem countP_key_le_one (s : Store) (k : Date × String × String × String × String)
    (hU : UniqKeys s) :
    s.countP (fun a => decide (a.key = k)) ≤ 1 := by
  induction s with
  | nil => simp
  | cons a rest ih =>
    rw [UniqKeys, List.pairwise_cons] at hU
    by_cases h : a.key = k
    · rw [List.countP_cons, if_pos (by simpa using h)]
      have hz : rest.countP (fun a => decide (a.key = k)) = 0 := by
        rw [List.countP_eq_zero]
        intro b hb
        simp only [decide_eq_true_eq]
        intro hbk
        exact hU.1 b hb (h.trans hbk.symm)
      omega
    · rw [List.countP_cons, if_neg (by simpa using h)]
      simpa using ih hU.2

/-- `INSERT OR IGNORE` leaves exactly one row with the inserted key. -/
theorem countP_key_dbInsert (s : Store) (r : Payment) (hU : UniqKeys s) :
    (dbInsert s r).countP (fun a => decide (a.key = r.key)) = 1 := by
  rw [dbInsert]
  by_cases h : s.any (fun x => decide (x.key = r.key)) = true
  · rw [if_pos h]
    rw [List.any_eq_true] at h
    obtain ⟨x, hx, hk⟩ := h
    have hpos : 0 < s.countP (fun a => decide (a.key = r.key)) := by
      rw [List.countP_pos_iff]
      exact ⟨x, hx, hk⟩
    have := countP_key_le_one s r.key hU
    omega
  · rw [if_neg h, List.countP_append]
    have hz : s.countP (fun a => decide (a.key = r.key)) = 0 := by
      rw [List.countP_eq_zero]
      intro b hb
      intro hbk
      apply h
      rw [List.any_eq_true]
      exact ⟨b, hb, hbk⟩
    simp [hz]

/-- `INSERT OR IGNORE` preserves the `ux_pagos` invariant. -/
theorem uniqKeys_dbInsert (s : Store) (r : Payment) (hU : UniqKeys s) :
    UniqKeys (dbInsert s r) := by
  rw [dbInsert]
  by_cases h : s.any (fun x => decide (x.key = r.key)) = true
  · rw [if_pos h]; exact hU
  · rw [if_neg h]
    rw [UniqKeys, List.pairwise_append]
    refine ⟨hU, by simp, ?_⟩
    intro a ha b hb
    simp only [List.mem_singleton] at hb
    subst hb
    intro hk
    apply h
    rw [List.any_eq_true]
    exact ⟨a, ha, by simp [hk]⟩

/-- Re-running `INSERT OR IGNORE` with the same row is the identity. -/
theorem dbInsert_idem (s : Store) (r : Payment) :
    dbInsert (dbInsert s r) r = dbInsert s r := by
  rw [dbInsert, dbInsert]
  by_cases h : s.any (fun x => decide (x.key = r.key)) = true
  · simp [h]
  · rw [if_neg h]
    rw [if_pos]
    simp

/-- C1: the tuple `(date, kind, fund, detail, origin)` is unique in the
store: on a store satisfying the `ux_pagos` invariant, calling `add` twice
with identical arguments equals calling it once (a no-op, not an error),
and `get_day` on that date afterwards holds exactly one row with the
inserted tuple. -/
theorem C1_add_unique_idempotent (s : Store) (d : Date)
    (tipo fondo detalle fuente origen : String) (hU : UniqKeys s) :
    PaymentsDB.add (PaymentsDB.add s d tipo fondo detalle fuente origen)
        d tipo fondo detalle fuente origen =
      PaymentsDB.add s d tipo fondo detalle fuente origen ∧
    (PaymentsDB.getDay (PaymentsDB.add s d tipo fondo detalle fuente origen)
        d []).countP
      (fun x =>
        decide (x.key = (addRow d tipo fondo detalle fuente origen).key)) =
      1 := by
  simp only [PaymentsDB.add]
  set r := addRow d tipo fondo detalle fuente origen with hr
  refine ⟨dbInsert_idem s r, ?_⟩
  rw [PaymentsDB.getDay,
    (sortBy_perm leDayOrd _).countP_eq, List.countP_filter]
  have hcong : ∀ a ∈ dbInsert s r,
      (decide (a.key = r.key) &&
        (decide (a.fecha = d) && originPass [] a.origen)) =
      decide (a.key = r.key) := by
    intro a _
    by_cases hk : a.key = r.key
    · have hf : a.fecha = d := by
        have h1 : a.fecha = r.fecha := congrArg Prod.fst hk
        rw [h1, hr]
        rfl
      simp [hk, hf, originPass]
    · simp [hk]
  rw [List.countP_congr (fun x hx => by rw [hcong x hx])]
  exact countP_key_dbInsert s r hU

/-- Witness for C1 on the empty store with a concrete record. -/
theorem C1_add_unique_idempotent_witness :
    UniqKeys [] ∧
    (PaymentsDB.add
        (PaymentsDB.add [] ⟨2025, 1, 10⟩ "Pago" "FEAGA" "X" "" "manual")
        ⟨2025, 1, 10⟩ "Pago" "FEAGA" "X" "" "manual" =
      PaymentsDB.add [] ⟨2025, 1, 10⟩ "Pago" "FEAGA" "X" "" "manual") ∧
    (PaymentsDB.getDay
        (PaymentsDB.add [] ⟨2025, 1, 10⟩ "Pago" "FEAGA" "X" "" "manual")
        ⟨2025, 1, 10⟩ []).countP
      (fun x =>
        decide (x.key = (addRow ⟨2025, 1, 10⟩ "Pago" "FEAGA" "X" "" "manual").key)) =
      1 :=
  ⟨List.Pairwise.nil,
   (C1_add_unique_idempotent [] ⟨2025, 1, 10⟩ "Pago" "FEAGA" "X" "" "manual"
     List.Pairwise.nil).1,
   (C1_add_unique_idempotent [] ⟨2025, 1, 10⟩ "Pago" "FEAGA" "X" "" "manual"
     List.Pairwise.nil).2⟩

/-- Every row synthesized by `day_in_any_window` carries origin `info`. -/
theorem dayInAnyWindow_origen (d : Date) :
    ∀ r ∈ dayInAnyWindow d, r.origen = "info" := by
  intro r hr
  simp only [dayInAnyWindow, List.mem_append, List.mem_map,
    List.mem_singleton] at hr
  rcases hr with ⟨w, _, rfl⟩ | rfl
  · rfl
  · rfl

/-- `day_in_any_window` always returns at least the FEADER reminder. -/
theorem dayInAnyWindow_ne_nil (d : Date) : dayInAnyWindow d ≠ [] := by
  simp [dayInAnyWindow]

/-- The list built by the empty-day branch of `_show_day` is never empty. -/
theorem emptyDayGen_ne_nil (s : Store) (active : List String) (dt : Date) :
    emptyDayGen s active dt ≠ [] := by
  simp [emptyDayGen, dayInAnyWindow]

/-- On a day with no stored rows under the filter, `_show_day` takes the
empty branch and its `month_generic_for_day` sub-branch is dead: the result
is exactly the `emptyDayGen` list. -/
theorem showDay_of_getDay_nil (s : Store) (active : List String) (dt : Date)
    (h : PaymentsDB.getDay s dt active = []) :
    showDay s active dt = emptyDayGen s active dt := by
  have hie : (emptyDayGen s active dt).isEmpty = false := by
    rw [List.isEmpty_eq_false]
    exact emptyDayGen_ne_nil s active dt
  rw [showDay, h]
  simp only [List.isEmpty_nil, if_true]
  rw [hie]
  simp

/-- C4: for a date with zero stored records under the active origin filter,
the day-level resolution returns a non-empty list whose entries all carry
origin `info`. -/
theorem C4_fallback_all_info (s : Store) (active : List String) (dt : Date)
    (h : PaymentsDB.getDay s dt active = []) :
    showDay s active dt ≠ [] ∧
    (showDay s active dt).all (fun r => r.origen == "info") = true := by
  rw [showDay_of_getDay_nil s active dt h]
  refine ⟨emptyDayGen_ne_nil s active dt, ?_⟩
  rw [List.all_eq_true]
  intro r hr
  simp only [emptyDayGen, List.mem_append, List.mem_map] at hr
  rcases hr with hr | ⟨x, _, rfl⟩
  · rw [dayInAnyWindow_origen dt r hr]
    rfl
  · rfl

/-- Witness for C4: the empty store and the day 2025-11-20. -/
theorem C4_fallback_all_info_witness :
    PaymentsDB.getDay [] ⟨2025, 11, 20⟩ ["manual", "web", "heuristica"] = [] ∧
    showDay [] ["manual", "web", "heuristica"] ⟨2025, 11, 20⟩ ≠ [] ∧
    (showDay [] ["manual", "web", "heuristica"] ⟨2025, 11, 20⟩).all
      (fun r => r.origen == "info") = true :=
  ⟨rfl,
   (C4_fallback_all_info [] ["manual", "web", "heuristica"] ⟨2025, 11, 20⟩
     rfl).1,
   (C4_fallback_all_info [] ["manual", "web", "heuristica"] ⟨2025, 11, 20⟩
     rfl).2⟩

/-- C5: when a manual- or web-origin FEAGA record is visible on the day
under the active origin filter, `_show_day` adds nothing for fund FEAGA:
the result is the stored rows plus a (possibly empty) tail that contains no
FEAGA entry at all — in particular no `info`-origin FEAGA window reference
and no recast month-level FEAGA entry. -/
theorem C5_manual_feaga_suppresses_fallback (s : Store) (active : List String)
    (dt : Date)
    (h : ∃ r ∈ PaymentsDB.getDay s dt active,
      strUpper r.fondo = "FEAGA" ∧ (r.origen = "manual" ∨ r.origen = "web")) :
    ∃ tail, showDay s active dt = PaymentsDB.getDay s dt active ++ tail ∧
      tail.all (fun r => !(strUpper r.fondo == "FEAGA")) = true := by
  obtain ⟨r, hr, hfondo, horig⟩ := h
  have hfeaga : hasDayFondo (PaymentsDB.getDay s dt active) "FEAGA" = true := by
    rw [hasDayFondo, List.any_eq_true]
    refine ⟨r, hr, ?_⟩
    rcases horig with h1 | h1 <;> simp [hfondo, h1]
  have hie : (PaymentsDB.getDay s dt active).isEmpty = false := by
    rw [List.isEmpty_eq_false]
    intro hq
    rw [hq] at hr
    exact absurd hr (List.not_mem_nil r)
  have htail : ∀ x ∈ ((PaymentsDB.getMonth s dt.year dt.month active).filter
      (fun q => strUpper q.fondo == "FEADER")).take 20,
      (!(strUpper (recastAsMonthItem dt x).fondo == "FEAGA")) = true := by
    intro x hx
    have hxf : (strUpper x.fondo == "FEADER") = true :=
      (List.mem_filter.mp (List.mem_of_mem_take hx)).2
    have hx2 : strUpper x.fondo = "FEADER" := by simpa using hxf
    simp [recastAsMonthItem, hx2]
  by_cases hdf : hasDayFondo (PaymentsDB.getDay s dt active) "FEADER" = true
  · refine ⟨[], ?_, rfl⟩
    rw [showDay, hie, hfeaga, hdf]
    simp
  · rw [Bool.not_eq_true] at hdf
    refine ⟨((PaymentsDB.getMonth s dt.year dt.month active).filter
        (fun q => strUpper q.fondo == "FEADER")).take 20
        |>.map (recastAsMonthItem dt), ?_, ?_⟩
    · rw [showDay, hie, hfeaga, hdf]
      simp
    · rw [List.all_eq_true]
      intro q hq
      obtain ⟨x, hx, rfl⟩ := List.mem_map.mp hq
      exact htail x hx

/-- Witness for C5: a store holding one manual FEAGA row on the day. -/
theorem C5_manual_feaga_suppresses_fallback_witness :
    (∃ r ∈ PaymentsDB.getDay
        [⟨⟨2025, 11, 20⟩, "Anticipo", "FEAGA", "d", "", "manual"⟩]
        ⟨2025, 11, 20⟩ ["manual"],
      strUpper r.fondo = "FEAGA" ∧
        (r.origen = "manual" ∨ r.origen = "web")) ∧
    ∃ tail, showDay [⟨⟨2025, 11, 20⟩, "Anticipo", "FEAGA", "d", "", "manual"⟩]
        ["manual"] ⟨2025, 11, 20⟩ =
      PaymentsDB.getDay
        [⟨⟨2025, 11, 20⟩, "Anticipo", "FEAGA", "d", "", "manual"⟩]
        ⟨2025, 11, 20⟩ ["manual"] ++ tail ∧
      tail.all (fun r => !(strUpper r.fondo == "FEAGA")) = true :=
  ⟨by decide,
   C5_manual_feaga_suppresses_fallback
     [⟨⟨2025, 11, 20⟩, "Anticipo", "FEAGA", "d", "", "manual"⟩]
     ["manual"] ⟨2025, 11, 20⟩ (by decide)⟩

/-- C10: `day_in_any_window` always returns a non-empty list (it appends
the constant FEADER reminder), hence the `emptyDayGen` list of the empty-day
branch of `_show_day` is never empty and the guarded fallback to
`month_generic_for_day` is unreachable: a day query with no stored rows
resolves to `emptyDayGen`, never to the month-summary tier. -/
theorem C10_month_generic_unreachable (s : Store) (active : List String)
    (d : Date) (h : PaymentsDB.getDay s d active = []) :
    dayInAnyWindow d ≠ [] ∧
    emptyDayGen s active d ≠ [] ∧
    showDay s active d = emptyDayGen s active d :=
  ⟨dayInAnyWindow_ne_nil d, emptyDayGen_ne_nil s active d,
   showDay_of_getDay_nil s active d h⟩

/-- Witness for C10 on the empty store at 2025-07-15. -/
theorem C10_month_generic_unreachable_witness :
    PaymentsDB.getDay [] ⟨2025, 7, 15⟩ [] = [] ∧
    dayInAnyWindow ⟨2025, 7, 15⟩ ≠ [] ∧
    emptyDayGen [] [] ⟨2025, 7, 15⟩ ≠ [] ∧
    showDay [] [] ⟨2025, 7, 15⟩ = emptyDayGen [] [] ⟨2025, 7, 15⟩ :=
  ⟨rfl, (C10_month_generic_unreachable [] [] ⟨2025, 7, 15⟩ rfl).1,
   (C10_month_generic_unreachable [] [] ⟨2025, 7, 15⟩ rfl).2.1,
   (C10_month_generic_unreachable [] [] ⟨2025, 7, 15⟩ rfl).2.2⟩

/-- C9: month and range queries synthesize nothing — every returned row is
a stored row (an empty result is surfaced as "no data"), and a range whose
end precedes its start returns the empty list rather than failing. -/
theorem C9_month_range_no_fallback (s : Store) (active : List String)
    (y m : Nat) (d1 d2 : Date) :
    (∀ r ∈ showMonth s active y m, r ∈ s) ∧
    (∀ r ∈ PaymentsDB.getRange s d1 d2 active, r ∈ s) ∧
    (Date.lt d2 d1 → PaymentsDB.getRange s d1 d2 active = []) := by
  refine ⟨?_, ?_, ?_⟩
  · intro r hr
    rw [showMonth, PaymentsDB.getMonth, PaymentsDB.getRange] at hr
    exact List.mem_of_mem_filter ((sortBy_perm _ _).mem_iff.mp hr)
  · intro r hr
    rw [PaymentsDB.getRange] at hr
    exact List.mem_of_mem_filter ((sortBy_perm _ _).mem_iff.mp hr)
  · intro hlt
    rw [PaymentsDB.getRange]
    have hf : s.filter (fun r => decide (Date.le d1 r.fecha) &&
        (decide (Date.le r.fecha d2) && originPass active r.origen)) = [] := by
      rw [List.filter_eq_nil_iff]
      intro a _
      simp only [Bool.and_eq_true, decide_eq_true_eq, not_and]
      intro h1 h2
      exfalso
      rcases d1 with ⟨y1, m1, dd1⟩
      rcases d2 with ⟨y2, m2, dd2⟩
      rcases hfa : a.fecha with ⟨ya, ma, da⟩
      rw [hfa] at h1
      rw [hfa] at h2
      simp only [Date.le, Date.lt] at h1 h2 hlt
      omega
    rw [hf]
    rfl

/-- Witness for C9: a one-row store, and an inverted range. -/
theorem C9_month_range_no_fallback_witness :
    (∀ r ∈ showMonth [⟨⟨2025, 7, 3⟩, "Pago", "FEADER", "X", "", "manual"⟩]
        ["manual"] 2025 7,
      r ∈ [⟨⟨2025, 7, 3⟩, "Pago", "FEADER", "X", "", "manual"⟩]) ∧
    Date.lt ⟨2025, 3, 1⟩ ⟨2025, 3, 5⟩ ∧
    PaymentsDB.getRange [⟨⟨2025, 7, 3⟩, "Pago", "FEADER", "X", "", "manual"⟩]
      ⟨2025, 3, 5⟩ ⟨2025, 3, 1⟩ ["manual"] = [] :=
  ⟨(C9_month_range_no_fallback
      [⟨⟨2025, 7, 3⟩, "Pago", "FEADER", "X", "", "manual"⟩]
      ["manual"] 2025 7 ⟨2025, 3, 5⟩ ⟨2025, 3, 1⟩).1,
   by decide,
   (C9_month_range_no_fallback
      [⟨⟨2025, 7, 3⟩, "Pago", "FEADER", "X", "", "manual"⟩]
      ["manual"] 2025 7 ⟨2025, 3, 5⟩ ⟨2025, 3, 1⟩).2.2 (by decide)⟩

/-- Every month has at least one day. -/
theorem daysInMonth_pos (y m : Nat) : 1 ≤ daysInMonth y m := by
  rw [daysInMonth]
  split
  · split <;> omega
  · split <;> omega

/-- Unfolding step of `daysBeforeMonth` for months `1 ≤ m`. -/
theorem dbm_succ (y m : Nat) (h : 1 ≤ m) :
    daysBeforeMonth y (m + 1) = daysBeforeMonth y m + daysInMonth y m := by
  obtain ⟨k, rfl⟩ : ∃ k, m = k + 1 := ⟨m - 1, by omega⟩
  rfl

/-- The whole year has `365` days plus the leap correction. -/
theorem dbm_13 (y : Nat) :
    daysBeforeMonth y 13 = 365 + (if isLeap y then 1 else 0) := by
  rw [show (13 : Nat) = 12 + 1 from rfl, dbm_succ y 12 (by omega)]
  rw [show (12 : Nat) = 11 + 1 from rfl, dbm_succ y 11 (by omega)]
  rw [show (11 : Nat) = 10 + 1 from rfl, dbm_succ y 10 (by omega)]
  rw [show (10 : Nat) = 9 + 1 from rfl, dbm_succ y 9 (by omega)]
  rw [show (9 : Nat) = 8 + 1 from rfl, dbm_succ y 8 (by omega)]
  rw [show (8 : Nat) = 7 + 1 from rfl, dbm_succ y 7 (by omega)]
  rw [show (7 : Nat) = 6 + 1 from rfl, dbm_succ y 6 (by omega)]
  rw [show (6 : Nat) = 5 + 1 from rfl, dbm_succ y 5 (by omega)]
  rw [show (5 : Nat) = 4 + 1 from rfl, dbm_succ y 4 (by omega)]
  rw [show (4 : Nat) = 3 + 1 from rfl, dbm_succ y 3 (by omega)]
  rw [show (3 : Nat) = 2 + 1 from rfl, dbm_succ y 2 (by omega)]
  rw [show (2 : Nat) = 1 + 1 from rfl, dbm_succ y 1 (by omega)]
  by_cases h : isLeap y = true <;>
    simp [daysBeforeMonth, daysInMonth, h]

/-- Counting leap years: stepping the upper bound by one year adds one
exactly when the crossed year is leap. -/
theorem leapsBefore_succ (y : Nat) (hy : 1 ≤ y) :
    leapsBefore (y + 1) = leapsBefore y + (if isLeap y then 1 else 0) := by
  obtain ⟨n, rfl⟩ : ∃ n, y = n + 1 := ⟨y - 1, by omega⟩
  simp only [leapsBefore, Nat.add_sub_cancel]
  by_cases hL : isLeap (n + 1) = true
  · rw [if_pos hL]
    rw [isLeap, Bool.or_eq_true, Bool.and_eq_true] at hL
    simp only [beq_iff_eq, bne_iff_ne, ne_eq] at hL
    omega
  · rw [if_neg hL]
    simp only [isLeap, Bool.or_eq_true, Bool.and_eq_true, beq_iff_eq,
      bne_iff_ne, ne_eq, not_or, not_and, not_not] at hL
    omega

/-- The leap-year count is monotone. -/
theorem leapsBefore_mono {a b : Nat} (h : a ≤ b) :
    leapsBefore a ≤ leapsBefore b := by
  induction b with
  | zero => simp [Nat.le_zero.mp h]
  | succ k ih =>
    by_cases hk : a ≤ k
    · refine (ih hk).trans ?_
      by_cases h0 : 1 ≤ k
      · rw [leapsBefore_succ k h0]; omega
      · have : k = 0 := by omega
        subst this
        simp [leapsBefore]
    · have : a = k + 1 := by omega
      rw [this]

/-- Validity of a literal date, spelled on the three fields. -/
theorem date_ok_mk (y m dd : Nat) :
    Date.Ok ⟨y, m, dd⟩ ↔
      1 ≤ y ∧ 1 ≤ m ∧ m ≤ 12 ∧ 1 ≤ dd ∧ dd ≤ daysInMonth y m :=
  Iff.rfl

/-- Stepping a valid date by one day keeps it valid. -/
theorem nextDay_ok (d : Date) (h : d.Ok) : (nextDay d).Ok := by
  obtain ⟨h1, h2, h3, h4, h5⟩ := h
  rw [nextDay]
  split
  next hc =>
    rw [date_ok_mk]
    exact ⟨h1, h2, h3, by omega, by omega⟩
  next hc =>
    split
    next hm =>
      rw [date_ok_mk]
      exact ⟨h1, by omega, by omega, by omega, daysInMonth_pos _ _⟩
    next hm =>
      rw [date_ok_mk]
      exact ⟨by omega, by omega, by omega, by omega, daysInMonth_pos _ _⟩

/-- A month ends before a later month starts. -/
theorem dbm_add_le (y : Nat) : ∀ m2 m1 : Nat, 1 ≤ m1 → m1 < m2 → m2 ≤ 13 →
    daysBeforeMonth y m1 + daysInMonth y m1 ≤ daysBeforeMonth y m2 := by
  intro m2
  induction m2 with
  | zero => intro m1 h1 hlt h2; omega
  | succ k ih =>
    intro m1 h1 hlt h2
    by_cases hk : m1 < k
    · refine (ih m1 h1 hk (by omega)).trans ?_
      rw [dbm_succ y k (by omega)]
      omega
    · have hkm : k = m1 := by omega
      rw [hkm, dbm_succ y m1 h1]

/-- A valid date's day-of-year offset stays within the year. -/
theorem dbm_day_le (y m dd : Nat) (h1 : 1 ≤ m) (h2 : m ≤ 12)
    (h3 : dd ≤ daysInMonth y m) :
    daysBeforeMonth y m + dd ≤ 365 + (if isLeap y then 1 else 0) := by
  have := dbm_add_le y 13 m h1 (by omega) (by omega)
  rw [dbm_13] at this
  omega

/-- Day numbers of consecutive valid dates are consecutive. -/
theorem ratadie_nextDay (d : Date) (h : d.Ok) :
    ratadie (nextDay d) = ratadie d + 1 := by
  obtain ⟨h1, h2, h3, h4, h5⟩ := h
  rw [nextDay]
  split
  next hc =>
    simp only [ratadie]
    omega
  next hc =>
    split
    next hm =>
      simp only [ratadie]
      rw [dbm_succ d.year d.month h2]
      omega
    next hm =>
      have hm12 : d.month = 12 := by omega
      rw [hm12] at h5 hc
      have hd31 : d.day = 31 := by
        have h31 : daysInMonth d.year 12 = 31 := rfl
        omega
      simp only [ratadie]
      have hy := leapsBefore_succ d.year h1
      have hdbm := dbm_13 d.year
      rw [show (13 : Nat) = 12 + 1 from rfl, dbm_succ d.year 12 (by omega)] at hdbm
      have h31 : daysInMonth d.year 12 = 31 := rfl
      have hdb1 : daysBeforeMonth (d.year + 1) 1 = 0 := rfl
      rw [hm12, hd31, hdb1]
      by_cases hL : isLeap d.year = true
      · rw [if_pos hL] at hy hdbm
        omega
      · rw [if_neg hL] at hy hdbm
        omega

/-- The day number is strictly monotone on valid dates. -/
theorem ratadie_strict_mono (a b : Date) (ha : a.Ok) (hb : b.Ok)
    (hlt : Date.lt a b) : ratadie a < ratadie b := by
  obtain ⟨ha1, ha2, ha3, ha4, ha5⟩ := ha
  obtain ⟨hb1, hb2, hb3, hb4, hb5⟩ := hb
  rcases hlt with hy | ⟨hy, hm | ⟨hm, hd⟩⟩
  · -- years differ: bound `a` by the end of its year, `b` from its start
    have hua : daysBeforeMonth a.year a.month + a.day ≤
        365 + (if isLeap a.year then 1 else 0) := dbm_day_le _ _ _ ha2 ha3 ha5
    have hl : leapsBefore (a.year + 1) =
        leapsBefore a.year + (if isLeap a.year then 1 else 0) :=
      leapsBefore_succ a.year ha1
    have hmono : leapsBefore (a.year + 1) ≤ leapsBefore b.year :=
      leapsBefore_mono (by omega)
    have hlb : 0 ≤ daysBeforeMonth b.year b.month := Nat.zero_le _
    simp only [ratadie]
    by_cases hL : isLeap a.year = true
    · rw [if_pos hL] at hua hl
      have : 365 * (a.year - 1) + 365 ≤ 365 * (b.year - 1) := by
        have : a.year ≤ b.year - 1 := by omega
        calc 365 * (a.year - 1) + 365 = 365 * a.year := by omega
          _ ≤ 365 * (b.year - 1) := Nat.mul_le_mul_left 365 this
      omega
    · rw [if_neg hL] at hua hl
      have : 365 * (a.year - 1) + 365 ≤ 365 * (b.year - 1) := by
        have : a.year ≤ b.year - 1 := by omega
        calc 365 * (a.year - 1) + 365 = 365 * a.year := by omega
          _ ≤ 365 * (b.year - 1) := Nat.mul_le_mul_left 365 this
      omega
  · -- same year, earlier month
    have hstep := dbm_add_le a.year b.month a.month ha2 hm (by omega)
    simp only [ratadie]
    rw [← hy]
    omega
  · -- same year and month, earlier day
    simp only [ratadie]
    rw [← hy, ← hm]
    omega

/-- Date comparison agrees with day-number comparison on valid dates. -/
theorem date_le_iff (a b : Date) (ha : a.Ok) (hb : b.Ok) :
    Date.le a b ↔ ratadie a ≤ ratadie b := by
  constructor
  · intro h
    by_cases heq : a = b
    · rw [heq]
    · have hlt : Date.lt a b := by
        rcases a with ⟨y1, m1, d1⟩
        rcases b with ⟨y2, m2, d2⟩
        simp only [Date.mk.injEq, not_and] at heq
        simp only [Date.le] at h
        simp only [Date.lt]
        omega
      exact Nat.le_of_lt (ratadie_strict_mono a b ha hb hlt)
  · intro h
    by_contra hc
    have hlt : Date.lt b a := by
      rcases a with ⟨y1, m1, d1⟩
      rcases b with ⟨y2, m2, d2⟩
      simp only [Date.le] at hc
      simp only [Date.lt]
      omega
    have := ratadie_strict_mono b a hb ha hlt
    omega

/-- Behaviour of the `daterange` loop body: starting from any valid cursor
with exactly enough fuel to reach `d2`, it emits valid dates whose day
numbers are the consecutive block from the cursor's day number. -/
theorem daterangeFuel_spec (d2 : Date) (hd2 : d2.Ok) :
    ∀ (n : Nat) (cur : Date), cur.Ok → n = ratadie d2 + 1 - ratadie cur →
      (∀ x ∈ daterangeFuel n cur d2, x.Ok) ∧
      (daterangeFuel n cur d2).map ratadie =
        (if Date.le cur d2 then List.range' (ratadie cur) n else []) := by
  intro n
  induction n with
  | zero =>
    intro cur hcur hn
    have hnle : ¬ Date.le cur d2 := by
      intro hle
      have := (date_le_iff cur d2 hcur hd2).mp hle
      omega
    exact ⟨fun x hx => absurd hx (List.not_mem_nil x),
      by rw [if_neg hnle]; rfl⟩
  | succ k ih =>
    intro cur hcur hn
    by_cases hle : Date.le cur d2
    · have hrle : ratadie cur ≤ ratadie d2 := (date_le_iff _ _ hcur hd2).mp hle
      have hnext : ratadie (nextDay cur) = ratadie cur + 1 :=
        ratadie_nextDay cur hcur
      have hok : (nextDay cur).Ok := nextDay_ok cur hcur
      obtain ⟨ihok, ihmap⟩ := ih (nextDay cur) hok (by omega)
      rw [daterangeFuel, if_pos hle]
      constructor
      · intro x hx
        rcases List.mem_cons.mp hx with rfl | hx
        · exact hcur
        · exact ihok x hx
      · rw [if_pos hle, List.map_cons, ihmap, List.range'_succ]
        by_cases hle2 : Date.le (nextDay cur) d2
        · rw [if_pos hle2, hnext]
        · have hgt : ratadie d2 < ratadie (nextDay cur) := by
            by_contra hc
            exact hle2 ((date_le_iff _ _ hok hd2).mpr (by omega))
          have hk0 : k = 0 := by omega
          subst hk0
          rw [if_neg hle2]
          rfl
    · rw [daterangeFuel, if_neg hle, if_neg hle]
      exact ⟨fun x hx => absurd hx (List.not_mem_nil x), rfl⟩

/-- For valid `d1 ≤ d2`, `daterange d1 d2` is the block of consecutive
valid dates from `d1` to `d2`. -/
theorem daterange_spec (d1 d2 : Date) (h1 : d1.Ok) (h2 : d2.Ok)
    (hle : Date.le d1 d2) :
    (∀ x ∈ daterange d1 d2, x.Ok) ∧
    (daterange d1 d2).map ratadie =
      List.range' (ratadie d1) (ratadie d2 + 1 - ratadie d1) := by
  obtain ⟨hok, hmap⟩ := daterangeFuel_spec d2 h2 _ d1 h1 rfl
  exact ⟨hok, by rw [daterange, hmap, if_pos hle]⟩

/-- With `d2 < d1` (both valid), `daterange` is empty. -/
theorem daterange_nil (d1 d2 : Date) (h1 : d1.Ok) (h2 : d2.Ok)
    (hlt : Date.lt d2 d1) : daterange d1 d2 = [] := by
  have := ratadie_strict_mono d2 d1 h2 h1 hlt
  rw [daterange, show ratadie d2 + 1 - ratadie d1 = 0 from by omega]
  rfl

/-- Element count of `daterange`: one entry per day of the interval. -/
theorem daterange_length (d1 d2 : Date) (h1 : d1.Ok) (h2 : d2.Ok)
    (hle : Date.le d1 d2) :
    (daterange d1 d2).length = ratadie d2 + 1 - ratadie d1 := by
  have hmap := (daterange_spec d1 d2 h1 h2 hle).2
  have := congrArg List.length hmap
  simpa using this

/-- The days of `daterange` are pairwise distinct. -/
theorem daterange_nodup (d1 d2 : Date) (h1 : d1.Ok) (h2 : d2.Ok)
    (hle : Date.le d1 d2) : (daterange d1 d2).Nodup := by
  have hmap := (daterange_spec d1 d2 h1 h2 hle).2
  have : ((daterange d1 d2).map ratadie).Nodup := by
    rw [hmap]
    exact List.nodup_range' _ _
  exact this.of_map ratadie

/-- Every element of `daterange d1 d2` lies in the closed interval. -/
theorem daterange_mem_le (d1 d2 : Date) (h1 : d1.Ok) (h2 : d2.Ok)
    (hle : Date.le d1 d2) :
    ∀ x ∈ daterange d1 d2, x.Ok ∧ Date.le d1 x ∧ Date.le x d2 := by
  obtain ⟨hok, hmap⟩ := daterange_spec d1 d2 h1 h2 hle
  intro x hx
  have hxr : ratadie x ∈ (daterange d1 d2).map ratadie :=
    List.mem_map_of_mem ratadie hx
  rw [hmap, List.mem_range'] at hxr
  obtain ⟨i, hi, hix⟩ := hxr
  have hrle : ratadie d1 ≤ ratadie d2 := (date_le_iff _ _ h1 h2).mp hle
  refine ⟨hok x hx, ?_, ?_⟩
  · exact (date_le_iff _ _ h1 (hok x hx)).mpr (by omega)
  · exact (date_le_iff _ _ (hok x hx) h2).mpr (by omega)

/-- The `add_range` loop over days whose dates are fresh (absent from the
accumulator) and pairwise distinct appends exactly one row per day. -/
theorem foldl_dbInsert_fresh (tipo fondo detalle fuente origen : String) :
    ∀ (days : List Date) (acc : Store),
      (∀ d ∈ days, ∀ r ∈ acc, r.fecha ≠ d) → days.Nodup →
      days.foldl
          (fun a d => dbInsert a ⟨d, tipo, fondo, detalle, fuente, origen⟩)
          acc =
        acc ++ days.map
          (fun d => (⟨d, tipo, fondo, detalle, fuente, origen⟩ : Payment)) := by
  intro days
  induction days with
  | nil => intro acc _ _; simp
  | cons d ds ih =>
    intro acc hfresh hnd
    rw [List.foldl_cons]
    have hins : dbInsert acc ⟨d, tipo, fondo, detalle, fuente, origen⟩ =
        acc ++ [⟨d, tipo, fondo, detalle, fuente, origen⟩] := by
      rw [dbInsert, if_neg]
      intro hany
      rw [List.any_eq_true] at hany
      obtain ⟨x, hx, hk⟩ := hany
      have hfe : x.fecha = d := congrArg Prod.fst (by simpa using hk)
      exact hfresh d (List.mem_cons_self d ds) x hx hfe
    rw [hins, ih]
    · simp
    · intro dd hdd r hr
      rcases List.mem_append.mp hr with hr | hr
      · exact hfresh dd (List.mem_cons_of_mem d hdd) r hr
      · rw [List.mem_singleton] at hr
        subst hr
        intro hc
        apply (List.nodup_cons.mp hnd).1
        have hdc : d = dd := hc
        rw [hdc]
        exact hdd
    · exact (List.nodup_cons.mp hnd).2

/-- C7: `add_range` performs exactly one insertion per calendar day of the
closed interval `[d1, d2]` with identical kind/fund/detail/source/origin
(so a `get_range` over the interval afterwards returns exactly
`ratadie d2 - ratadie d1 + 1` rows — one per day), and performs zero
insertions without failing when `d1 > d2`. -/
theorem C7_add_range_roundtrip (s : Store) (d1 d2 : Date)
    (tipo fondo detalle fuente origen : String)
    (h1 : d1.Ok) (h2 : d2.Ok)
    (hfree : ∀ r ∈ s, (decide (Date.le d1 r.fecha) &&
      decide (Date.le r.fecha d2)) = false) :
    (Date.lt d2 d1 →
      PaymentsDB.addRange s d1 d2 tipo fondo detalle fuente origen = s) ∧
    (Date.le d1 d2 →
      PaymentsDB.addRange s d1 d2 tipo fondo detalle fuente origen =
        s ++ (daterange d1 d2).map
          (fun d => (⟨d, tipo, fondo, detalle, fuente, origen⟩ : Payment)) ∧
      (daterange d1 d2).length = ratadie d2 + 1 - ratadie d1 ∧
      (PaymentsDB.getRange
          (PaymentsDB.addRange s d1 d2 tipo fondo detalle fuente origen)
          d1 d2 []).length = ratadie d2 + 1 - ratadie d1 ∧
      (∀ r ∈ PaymentsDB.getRange
          (PaymentsDB.addRange s d1 d2 tipo fondo detalle fuente origen)
          d1 d2 [],
        r.tipo = tipo ∧ r.fondo = fondo ∧ r.detalle = detalle ∧
        r.fuente = fuente ∧ r.origen = origen ∧
        Date.le d1 r.fecha ∧ Date.le r.fecha d2) ∧
      ((PaymentsDB.getRange
          (PaymentsDB.addRange s d1 d2 tipo fondo detalle fuente origen)
          d1 d2 []).map (fun r => r.fecha)).Nodup) := by
  constructor
  · intro hlt
    rw [PaymentsDB.addRange, daterange_nil d1 d2 h1 h2 hlt]
    rfl
  · intro hle
    have hmem := daterange_mem_le d1 d2 h1 h2 hle
    have hnd := daterange_nodup d1 d2 h1 h2 hle
    set pred : Payment → Bool := fun r => decide (Date.le d1 r.fecha) &&
      (decide (Date.le r.fecha d2) && originPass [] r.origen) with hpred
    set new : List Payment := (daterange d1 d2).map
      (fun d => (⟨d, tipo, fondo, detalle, fuente, origen⟩ : Payment))
      with hnew
    have hfold :
        PaymentsDB.addRange s d1 d2 tipo fondo detalle fuente origen =
          s ++ new := by
      rw [PaymentsDB.addRange, hnew]
      refine foldl_dbInsert_fresh tipo fondo detalle fuente origen
        (daterange d1 d2) s ?_ hnd
      intro d hd r hr hrd
      obtain ⟨_, hd1, hd2⟩ := hmem d hd
      have hftemp := hfree r hr
      rw [hrd, decide_eq_true hd1, decide_eq_true hd2] at hftemp
      simp at hftemp
    have hfs : s.filter pred = [] := by
      rw [List.filter_eq_nil_iff]
      intro r hr hcon
      have hftemp := hfree r hr
      simp only [hpred, Bool.and_eq_true] at hcon
      rw [hcon.1, hcon.2.1] at hftemp
      simp at hftemp
    have hft : new.filter pred = new := by
      rw [List.filter_eq_self]
      intro r hr
      rw [hnew] at hr
      obtain ⟨d, hd, rfl⟩ := List.mem_map.mp hr
      obtain ⟨_, hd1, hd2⟩ := hmem d hd
      simp [hpred, hd1, hd2, originPass]
    have hget :
        PaymentsDB.getRange
          (PaymentsDB.addRange s d1 d2 tipo fondo detalle fuente origen)
          d1 d2 [] = sortBy leRangeOrd new := by
      rw [hfold, PaymentsDB.getRange, ← hpred, List.filter_append, hfs, hft,
        List.nil_append]
    have hperm : List.Perm (sortBy leRangeOrd new) new :=
      sortBy_perm leRangeOrd new
    refine ⟨hfold, daterange_length d1 d2 h1 h2 hle, ?_, ?_, ?_⟩
    · rw [hget, hperm.length_eq, hnew, List.length_map]
      exact daterange_length d1 d2 h1 h2 hle
    · intro r hr
      rw [hget] at hr
      have hr2 := hperm.mem_iff.mp hr
      rw [hnew] at hr2
      obtain ⟨d, hd, rfl⟩ := List.mem_map.mp hr2
      obtain ⟨_, hd1, hd2⟩ := hmem d hd
      exact ⟨rfl, rfl, rfl, rfl, rfl, hd1, hd2⟩
    · rw [hget]
      have hpm := hperm.map (fun r : Payment => r.fecha)
      rw [hpm.nodup_iff, hnew, List.map_map]
      have hcomp : ((fun r : Payment => r.fecha) ∘
          (fun d => (⟨d, tipo, fondo, detalle, fuente, origen⟩ : Payment))) =
          fun d : Date => d := rfl
      rw [hcomp, List.map_id']
      exact hnd

/-- Witness for C7: inserting the four days 2025-02-27 .. 2025-03-02 into
the empty store and reading them back. -/
theorem C7_add_range_roundtrip_witness :
    Date.Ok ⟨2025, 2, 27⟩ ∧ Date.Ok ⟨2025, 3, 2⟩ ∧
    Date.le ⟨2025, 2, 27⟩ ⟨2025, 3, 2⟩ ∧
    ratadie ⟨2025, 3, 2⟩ + 1 - ratadie ⟨2025, 2, 27⟩ = 4 ∧
    (PaymentsDB.getRange
        (PaymentsDB.addRange [] ⟨2025, 2, 27⟩ ⟨2025, 3, 2⟩
          "Pago" "FEAGA" "X" "F" "manual")
        ⟨2025, 2, 27⟩ ⟨2025, 3, 2⟩ []).length =
      ratadie ⟨2025, 3, 2⟩ + 1 - ratadie ⟨2025, 2, 27⟩ :=
  ⟨by decide, by decide, by decide, by decide,
   ((C7_add_range_roundtrip [] ⟨2025, 2, 27⟩ ⟨2025, 3, 2⟩
       "Pago" "FEAGA" "X" "F" "manual" (by decide) (by decide)
       (by intro r hr; cases hr)).2 (by decide)).2.2.1⟩

/-- The dedup loop yields a subsequence of its input. -/
theorem dedupGo_sublist :
    ∀ (l : List Item) (seen : List (String × String × String)),
      (dedupGo seen l).Sublist l := by
  intro l
  induction l with
  | nil => intro seen; exact List.Sublist.refl []
  | cons it rest ih =>
    intro seen
    rw [dedupGo]
    by_cases h : itemTriple it ∈ seen
    · rw [if_pos h]
      exact (ih seen).cons it
    · rw [if_neg h]
      exact (ih (itemTriple it :: seen)).cons₂ it

/-- Triples already marked as seen never resurface in the dedup output. -/
theorem dedupGo_not_seen :
    ∀ (l : List Item) (seen : List (String × String × String)),
      ∀ u ∈ dedupGo seen l, itemTriple u ∉ seen := by
  intro l
  induction l with
  | nil => intro seen u hu; cases hu
  | cons it rest ih =>
    intro seen u hu
    rw [dedupGo] at hu
    by_cases h : itemTriple it ∈ seen
    · rw [if_pos h] at hu
      exact ih seen u hu
    · rw [if_neg h] at hu
      rcases List.mem_cons.mp hu with rfl | hu
      · exact h
      · have := ih (itemTriple it :: seen) u hu
        exact fun hc => this (List.mem_cons_of_mem _ hc)

/-- The dedup output carries pairwise distinct `(tipo,fondo,detalle)`. -/
theorem dedupGo_pairwise :
    ∀ (l : List Item) (seen : List (String × String × String)),
      List.Pairwise (fun a b => itemTriple a ≠ itemTriple b)
        (dedupGo seen l) := by
  intro l
  induction l with
  | nil => intro seen; exact List.Pairwise.nil
  | cons it rest ih =>
    intro seen
    rw [dedupGo]
    by_cases h : itemTriple it ∈ seen
    · rw [if_pos h]
      exact ih seen
    · rw [if_neg h]
      refine List.pairwise_cons.mpr ⟨?_, ih (itemTriple it :: seen)⟩
      intro b hb hc
      exact dedupGo_not_seen rest (itemTriple it :: seen) b hb
        (by rw [← hc]; exact List.mem_cons_self _ _)

/-- Every input triple not already seen is represented in the output. -/
theorem dedupGo_complete :
    ∀ (l : List Item) (seen : List (String × String × String)),
      ∀ it ∈ l, itemTriple it ∈ seen ∨
        ∃ u ∈ dedupGo seen l, itemTriple u = itemTriple it := by
  intro l
  induction l with
  | nil => intro seen it hit; cases hit
  | cons a rest ih =>
    intro seen it hit
    rw [dedupGo]
    by_cases h : itemTriple a ∈ seen
    · rw [if_pos h]
      rcases List.mem_cons.mp hit with heq | hit
      · exact Or.inl (by rw [heq]; exact h)
      · exact ih seen it hit
    · rw [if_neg h]
      rcases List.mem_cons.mp hit with heq | hit
      · exact Or.inr ⟨a, List.mem_cons_self _ _, by rw [heq]⟩
      · rcases ih (itemTriple a :: seen) it hit with hseen | ⟨u, hu, hue⟩
        · rcases List.mem_cons.mp hseen with heq | hseen
          · exact Or.inr ⟨a, List.mem_cons_self _ _, heq.symm⟩
          · exact Or.inl hseen
        · exact Or.inr ⟨u, List.mem_cons_of_mem a hu, hue⟩

/-- Each output entry is the first input entry bearing its triple. -/
theorem dedupGo_first :
    ∀ (l : List Item) (seen : List (String × String × String)),
      ∀ u ∈ dedupGo seen l,
        l.find? (fun v => decide (itemTriple v = itemTriple u)) = some u := by
  intro l
  induction l with
  | nil => intro seen u hu; cases hu
  | cons a rest ih =>
    intro seen u hu
    rw [dedupGo] at hu
    by_cases h : itemTriple a ∈ seen
    · rw [if_pos h] at hu
      have hne : itemTriple a ≠ itemTriple u := by
        intro hc
        exact dedupGo_not_seen rest seen u hu (hc ▸ h)
      rw [List.find?_cons_of_neg _ (by simpa using hne)]
      exact ih seen u hu
    · rw [if_neg h] at hu
      rcases List.mem_cons.mp hu with rfl | hu
      · rw [List.find?_cons_of_pos _ (by simp)]
      · have hnotin := dedupGo_not_seen rest (itemTriple a :: seen) u hu
        have hne : itemTriple a ≠ itemTriple u := by
          intro hc
          exact hnotin (by rw [← hc]; exact List.mem_cons_self _ _)
        rw [List.find?_cons_of_neg _ (by simpa using hne)]
        exact ih (itemTriple a :: seen) u hu

/-- C6 counterexample: the v4.2 `App._show_day` performs no deduplication.
With two stored FEADER rows of origins `manual` and `web` sharing kind,
detail and date 2025-07-03, the day query for 2025-07-15 recasts both into
identical month-level entries, so the returned list holds the triple
`("Pago", "FEADER", "Del mes · X (original: 03/07/2025)")` twice. -/
theorem C6_no_dedup_counterexample :
    ((showDay
        [⟨⟨2025, 7, 3⟩, "Pago", "FEADER", "X", "", "manual"⟩,
         ⟨⟨2025, 7, 3⟩, "Pago", "FEADER", "X", "", "web"⟩]
        ["manual", "web", "heuristica"] ⟨2025, 7, 15⟩).countP
      (fun r => decide ((r.tipo, r.fondo, r.detalle) =
        ("Pago", "FEADER", "Del mes · X (original: 03/07/2025)")))) = 2 := by
  decide

/-- C6 amended: only the v0.8 engine deduplicates day-level lists by the
triple `(kind, fund, detail)`. Its `_on_calendar_click` result contains at
most one entry per triple, is a subsequence of the pre-dedup list (order
preserved), represents every pre-dedup triple, and keeps exactly the
first-seen occurrence of each kept triple; `_effective_today_items`
deduplicates the same way. The v4.2 `_show_day` returns its list without
this deduplication (see the counterexample). -/
theorem C6_dedup_v08_on_calendar_click (idx : Index) (dt : Date) :
    List.Pairwise (fun a b => itemTriple a ≠ itemTriple b)
      (onCalendarClickItems idx dt) ∧
    (onCalendarClickItems idx dt).Sublist
      (indexGetDay idx dt ++
        (heurGetForDay dt).filter (fun i => !(strStarts i.tipo "Sin pagos"))) ∧
    (∀ it ∈ indexGetDay idx dt ++
        (heurGetForDay dt).filter (fun i => !(strStarts i.tipo "Sin pagos")),
      ∃ u ∈ onCalendarClickItems idx dt, itemTriple u = itemTriple it) ∧
    (∀ u ∈ onCalendarClickItems idx dt,
      (indexGetDay idx dt ++
          (heurGetForDay dt).filter
            (fun i => !(strStarts i.tipo "Sin pagos"))).find?
        (fun v => decide (itemTriple v = itemTriple u)) = some u) ∧
    List.Pairwise (fun a b => itemTriple a ≠ itemTriple b)
      (effectiveTodayItems idx dt) := by
  refine ⟨dedupGo_pairwise _ [], dedupGo_sublist _ [], ?_, ?_,
    dedupGo_pairwise _ []⟩
  · intro it hit
    rcases dedupGo_complete _ [] it hit with hseen | hex
    · cases hseen
    · exact hex
  · intro u hu
    exact dedupGo_first _ [] u hu

/-- Witness for the amended C6 on a concrete index and day: a duplicated
manual entry plus the heuristic anticipo entry collapse to single
occurrences. -/
theorem C6_dedup_v08_witness :
    List.Pairwise (fun a b => itemTriple a ≠ itemTriple b)
      (onCalendarClickItems
        [(⟨2025, 11, 20⟩, ⟨"Pago", "FEADER", "d", "f"⟩),
         (⟨2025, 11, 20⟩, ⟨"Pago", "FEADER", "d", "g"⟩)]
        ⟨2025, 11, 20⟩) ∧
    (onCalendarClickItems
        [(⟨2025, 11, 20⟩, ⟨"Pago", "FEADER", "d", "f"⟩),
         (⟨2025, 11, 20⟩, ⟨"Pago", "FEADER", "d", "g"⟩)]
        ⟨2025, 11, 20⟩).Sublist
      (indexGetDay
          [(⟨2025, 11, 20⟩, ⟨"Pago", "FEADER", "d", "f"⟩),
           (⟨2025, 11, 20⟩, ⟨"Pago", "FEADER", "d", "g"⟩)]
          ⟨2025, 11, 20⟩ ++
        (heurGetForDay ⟨2025, 11, 20⟩).filter
          (fun i => !(strStarts i.tipo "Sin pagos"))) :=
  ⟨(C6_dedup_v08_on_calendar_click
      [(⟨2025, 11, 20⟩, ⟨"Pago", "FEADER", "d", "f"⟩),
       (⟨2025, 11, 20⟩, ⟨"Pago", "FEADER", "d", "g"⟩)] ⟨2025, 11, 20⟩).1,
   (C6_dedup_v08_on_calendar_click
      [(⟨2025, 11, 20⟩, ⟨"Pago", "FEADER", "d", "f"⟩),
       (⟨2025, 11, 20⟩, ⟨"Pago", "FEADER", "d", "g"⟩)] ⟨2025, 11, 20⟩).2.1⟩

/-- ASCII lowercase of one character. -/
def lowChar (c : Char) : Char :=
  if 'A' ≤ c ∧ c ≤ 'Z' then Char.ofNat (c.toNat + 32) else c

/-- The `strip_accents_lower` helper (NFD-decompose, drop combining marks,
lowercase), embedded for the Spanish repertoire the importer meets: the
accented vowels, the diaeresis and the tilde-n fold to their base letter,
everything else is ASCII-lowercased. -/
def foldSpanishChar (c : Char) : Char :=
  if c = 'á' ∨ c = 'Á' then 'a'
  else if c = 'é' ∨ c = 'É' then 'e'
  else if c = 'í' ∨ c = 'Í' then 'i'
  else if c = 'ó' ∨ c = 'Ó' then 'o'
  else if c = 'ú' ∨ c = 'Ú' ∨ c = 'ü' ∨ c = 'Ü' then 'u'
  else if c = 'ñ' ∨ c = 'Ñ' then 'n'
  else lowChar c

/-- `strip_accents_lower` on a whole string. -/
def stripAccentsLower (s : String) : String :=
  String.mk (s.toList.map foldSpanishChar)

/-- ASCII digit test (regex `\d` on the cleaned ASCII line). -/
def isDigitCh (c : Char) : Bool := '0' ≤ c && c ≤ '9'

/-- Value of an ASCII digit. -/
def digVal (c : Char) : Nat := c.toNat - 48

/-- Regex `\w` on the cleaned ASCII line. -/
def isWordCh (c : Char) : Bool := c.isAlphanum || c = '_'

/-- Regex `\s+`: require one whitespace character, swallow the run (the
tokens that follow never start with whitespace, so maximal munch agrees
with the regex). -/
def ws1 : List Char → Option (List Char)
  | [] => none
  | c :: rest => if isWsChar c then some (rest.dropWhile isWsChar) else none

/-- Match a literal word, returning the rest of the input. -/
def lit : List Char → List Char → Option (List Char)
  | [], l => some l
  | _ :: _, [] => none
  | c :: cs, d :: ds => if c == d then lit cs ds else none

/-- Regex `(\d{1,2})` with its backtracking alternatives, longest first. -/
def digits12 : List Char → List (Nat × List Char)
  | [] => []
  | [c1] => if isDigitCh c1 then [(digVal c1, [])] else []
  | c1 :: c2 :: rest =>
    if isDigitCh c1 && isDigitCh c2 then
      [(digVal c1 * 10 + digVal c2, rest), (digVal c1, c2 :: rest)]
    else if isDigitCh c1 then [(digVal c1, c2 :: rest)] else []

/-- Try the continuation on each alternative in order. -/
def firstSome {α β : Type} : List α → (α → Option β) → Option β
  | [], _ => none
  | a :: as, f =>
    match f a with
    | some b => some b
    | none => firstSome as f

/-- The `meses_regex` alternation, in source order, with month numbers
(`"setiembre"` maps to 9 like `"septiembre"`). -/
def monthNames : List (List Char × Nat) :=
  [("enero".toList, 1), ("febrero".toList, 2), ("marzo".toList, 3),
   ("abril".toList, 4), ("mayo".toList, 5), ("junio".toList, 6),
   ("julio".toList, 7), ("agosto".toList, 8), ("septiembre".toList, 9),
   ("setiembre".toList, 9), ("octubre".toList, 10),
   ("noviembre".toList, 11), ("diciembre".toList, 12)]

/-- Match one month name of the alternation (no two names share a prefix,
so first-match agrees with the regex engine). -/
def matchMonth (l : List Char) : Option (Nat × List Char) :=
  firstSome monthNames (fun p =>
    match lit p.1 l with
    | some rest => some (p.2, rest)
    | none => none)

/-- Regex `\b` after a word character: next char absent or not a word
character. -/
def bEnd : List Char → Bool
  | [] => true
  | c :: _ => !(isWordCh c)

/-- Matcher of `rx_del_al_de_mes` at one position:
`\bdel\s+(\d{1,2})\s+al\s+(\d{1,2})\s+de\s+<mes>\b`. -/
def matchDelAlDeMes (l : List Char) : Option (Nat × Nat × Nat) :=
  (lit "del".toList l).bind fun r1 =>
  (ws1 r1).bind fun r2 =>
  firstSome (digits12 r2) fun p1 =>
  (ws1 p1.2).bind fun r3 =>
  (lit "al".toList r3).bind fun r4 =>
  (ws1 r4).bind fun r5 =>
  firstSome (digits12 r5) fun p2 =>
  (ws1 p2.2).bind fun r6 =>
  (lit "de".toList r6).bind fun r7 =>
  (ws1 r7).bind fun r8 =>
  (matchMonth r8).bind fun pm =>
  if bEnd pm.2 then some (p1.1, p2.1, pm.1) else none

/-- Matcher of `rx_del_al`: `\bdel\s+(\d{1,2})\s+al\s+(\d{1,2})\b`. -/
def matchDelAl (l : List Char) : Option (Nat × Nat) :=
  (lit "del".toList l).bind fun r1 =>
  (ws1 r1).bind fun r2 =>
  firstSome (digits12 r2) fun p1 =>
  (ws1 p1.2).bind fun r3 =>
  (lit "al".toList r3).bind fun r4 =>
  (ws1 r4).bind fun r5 =>
  firstSome (digits12 r5) fun p2 =>
  if bEnd p2.2 then some (p1.1, p2.1) else none

/-- Matcher of `rx_a_partir_de_mes`:
`\ba\s+partir\s+del\s+(\d{1,2})\s+de\s+<mes>\b`. -/
def matchAPartirDeMes (l : List Char) : Option (Nat × Nat) :=
  (lit "a".toList l).bind fun r1 =>
  (ws1 r1).bind fun r2 =>
  (lit "partir".toList r2).bind fun r3 =>
  (ws1 r3).bind fun r4 =>
  (lit "del".toList r4).bind fun r5 =>
  (ws1 r5).bind fun r6 =>
  firstSome (digits12 r6) fun p1 =>
  (ws1 p1.2).bind fun r7 =>
  (lit "de".toList r7).bind fun r8 =>
  (ws1 r8).bind fun r9 =>
  (matchMonth r9).bind fun pm =>
  if bEnd pm.2 then some (p1.1, pm.1) else none

/-- Matcher of `rx_a_partir`: `\ba\s+partir\s+del\s+(\d{1,2})\b`. -/
def matchAPartir (l : List Char) : Option Nat :=
  (lit "a".toList l).bind fun r1 =>
  (ws1 r1).bind fun r2 =>
  (lit "partir".toList r2).bind fun r3 =>
  (ws1 r3).bind fun r4 =>
  (lit "del".toList r4).bind fun r5 =>
  (ws1 r5).bind fun r6 =>
  firstSome (digits12 r6) fun p1 =>
  if bEnd p1.2 then some p1.1 else none

/-- Matcher of `rx_dia_de_mes`: `\b(\d{1,2})\s+de\s+<mes>\b`. -/
def matchDiaDeMes (l : List Char) : Option (Nat × Nat) :=
  firstSome (digits12 l) fun p1 =>
  (ws1 p1.2).bind fun r1 =>
  (lit "de".toList r1).bind fun r2 =>
  (ws1 r2).bind fun r3 =>
  (matchMonth r3).bind fun pm =>
  if bEnd pm.2 then some (p1.1, pm.1) else none

/-- Matcher of `rx_dia_suelto`: `\b(\d{1,2})\b`. -/
def matchDiaSuelto (l : List Char) : Option Nat :=
  firstSome (digits12 l) fun p1 =>
  if bEnd p1.2 then some p1.1 else none

/-- Leftmost search loop of `re.search`: try the matcher at each position
whose left context satisfies the leading `\b` (all six patterns start with
a word character, so the boundary holds exactly when the previous character
is absent or not a word character). -/
def searchB {α : Type} (f : List Char → Option α) :
    Option Char → List Char → Option α
  | _, [] => none
  | prev, c :: rest =>
    let bd := match prev with
      | none => true
      | some p => !(isWordCh p)
    match (if bd then f (c :: rest) else none) with
    | some r => some r
    | none => searchB f (some c) rest

/-- `re.search` of one of the six patterns over the cleaned line. -/
def search {α : Type} (f : List Char → Option α) (l : List Char) : Option α :=
  searchB f none l

/-- Split at the first colon (`str.split(":", 1)`), when one exists. -/
def splitOnceColon : List Char → Option (List Char × List Char)
  | [] => none
  | c :: cs =>
    if c == ':' then some ([], cs)
    else
      match splitOnceColon cs with
      | some p => some (c :: p.1, p.2)
      | none => none

/-- The `clean_tipo_det` helper: strip, drop leading dashes, strip again;
with a colon the kind is the stripped right part (or the 80-char prefix
when that is empty), the detail is the whole cleaned text. -/
def clean_tipo_det (ln : String) : String × String :=
  let txt := strTrim (String.mk ((strTrim ln).toList.dropWhile
    (fun c => c == '-')))
  match splitOnceColon txt.toList with
  | some p =>
    let tipo := strTrim (String.mk p.2)
    (if tipo = "" then String.mk (txt.toList.take 80) else tipo, txt)
  | none => (String.mk (txt.toList.take 80), txt)

/-- The per-line outcome of the Aragón-calendar importer: which store call
the matched pattern triggers (fund flags and counters are handled by the
caller), or a row-level exception. -/
inductive ParseResult
  | rangeAdd (startD endD : Date) (tipo detalle : String)
  | singleAdd (day : Date) (tipo detalle : String)
  | monthAdd (day : Date) (tipo detalle : String)
  | rowError
deriving DecidableEq, Repr

/-- The last resort of the line loop: a whole-month entry on day 1 of the
default month, its detail marked with the `[Mes]` prefix. -/
def parseFallback (ln : String) (year m : Nat) : ParseResult :=
  let td := clean_tipo_det ln
  if (Date.mk year m 1).Ok then
    .monthAdd ⟨year, m, 1⟩ td.1 ("[Mes] " ++ td.2)
  else .rowError

/-- The pattern cascade of `App._import_aragon_calendar_df` for one line of
the activity cell, given the default year and month of the row: the six
regexes are tried in source order on the accent-stripped lowercased line,
the first match wins; `date(...)` calls that would raise surface as
`rowError`, except in the bare-day branch whose `try/except` falls through
to the whole-month fallback. -/
def parseLine (ln : String) (year m : Nat) : ParseResult :=
  let lnClean := (stripAccentsLower ln).toList
  match search matchDelAlDeMes lnClean with
  | some c =>
    let startD : Date := ⟨year, c.2.2, c.1⟩
    let endD : Date := ⟨year, c.2.2, c.2.1⟩
    let td := clean_tipo_det ln
    if startD.Ok ∧ endD.Ok then .rangeAdd startD endD td.1 td.2
    else .rowError
  | none =>
  match search matchDelAl lnClean with
  | some c =>
    let startD : Date := ⟨year, m, c.1⟩
    let endD : Date := ⟨year, m, c.2⟩
    let td := clean_tipo_det ln
    if startD.Ok ∧ endD.Ok then .rangeAdd startD endD td.1 td.2
    else .rowError
  | none =>
  match search matchAPartirDeMes lnClean with
  | some c =>
    let startD : Date := ⟨year, c.2, c.1⟩
    let endD : Date := ⟨year, c.2, daysInMonth year c.2⟩
    let td := clean_tipo_det ln
    if startD.Ok ∧ endD.Ok then .rangeAdd startD endD td.1 td.2
    else .rowError
  | none =>
  match search matchAPartir lnClean with
  | some d1 =>
    let startD : Date := ⟨year, m, d1⟩
    let endD : Date := ⟨year, m, daysInMonth year m⟩
    let td := clean_tipo_det ln
    if startD.Ok ∧ endD.Ok then .rangeAdd startD endD td.1 td.2
    else .rowError
  | none =>
  match search matchDiaDeMes lnClean with
  | some c =>
    let theDay : Date := ⟨year, c.2, c.1⟩
    let td := clean_tipo_det ln
    if theDay.Ok then .singleAdd theDay td.1 td.2
    else .rowError
  | none =>
  match search matchDiaSuelto lnClean with
  | some d1 =>
    if ln.toList.contains ':' then
      let theDay : Date := ⟨year, m, d1⟩
      let td := clean_tipo_det ln
      if theDay.Ok then .singleAdd theDay td.1 td.2
      else parseFallback ln year m
    else parseFallback ln year m
  | none => parseFallback ln year m

/-- C8: the Spanish date-range cascade honours the stated precedence and
examples. With default year 2025, `"del 3 al 15 de mayo"` yields the range
2025-05-03 .. 2025-05-15 through the first pattern even though the looser
`del .. al ..` and `<dia> de <mes>` patterns also match the line (first
match wins); `"a partir del 10"` with default month 10 yields the range
2025-10-10 .. 2025-10-31 (through the month's last day);
`"12 de septiembre"` yields the single day 2025-09-12; a bare day in a
colon line (`"15: cobro de ayudas"`) yields the single day 15 of the
default month (the next-to-last pattern); and a line matching no pattern
yields one whole-month entry on day 1 of the default month whose detail
carries the `[Mes]` month-level prefix. -/
theorem C8_spanish_range_cascade :
    parseLine "del 3 al 15 de mayo" 2025 2 =
      .rangeAdd ⟨2025, 5, 3⟩ ⟨2025, 5, 15⟩
        "del 3 al 15 de mayo" "del 3 al 15 de mayo" ∧
    search matchDelAl
      (stripAccentsLower "del 3 al 15 de mayo").toList = some (3, 15) ∧
    search matchDiaDeMes
      (stripAccentsLower "del 3 al 15 de mayo").toList = some (15, 5) ∧
    parseLine "a partir del 10" 2025 10 =
      .rangeAdd ⟨2025, 10, 10⟩ ⟨2025, 10, 31⟩
        "a partir del 10" "a partir del 10" ∧
    parseLine "12 de septiembre" 2025 3 =
      .singleAdd ⟨2025, 9, 12⟩ "12 de septiembre" "12 de septiembre" ∧
    parseLine "15: cobro de ayudas" 2025 10 =
      .singleAdd ⟨2025, 10, 15⟩ "cobro de ayudas" "15: cobro de ayudas" ∧
    parseLine "preparacion de la campana" 2025 4 =
      .monthAdd ⟨2025, 4, 1⟩ "preparacion de la campana"
        "[Mes] preparacion de la campana" := by
  refine ⟨?_, ?_, ?_, ?_, ?_, ?_, ?_⟩ <;> decide

end Cal
